import Mathlib

/-!
Verification development for the backlink-metrics reconciliation tool
(a single pandas pipeline in `src/app.py`).

The embedding models, from the source:
  * the key normalizers `normalize_domain_like` and `normalize_page_url`
    (app.py lines 23 to 40), working on pandas string cells, where a
    missing cell rendered through `astype(str)` becomes the text "nan";
  * `extract_root_domain` (lines 15 to 21) on top of a model of the
    external `tldextract` library (not part of this repository; modelled
    from the spec with a representative public-suffix list);
  * the header aliaser `map_alias` (lines 71 to 98) over a table model
    with a header row and string-cell rows;
  * the safe ratio computation (lines 241 to 242 and 373 to 374), with
    numeric cells modelled as exact rationals and an explicit value for
    a would-be infinity;
  * the inner join, the combined-mode left join with its fill step, and
    the three mode pipelines from the join stage onward (lines 197 to
    444); schema errors happen before the join stage and are outside
    the modelled slice, so the pipelines start from alias-resolved rows.

Character-level operations model the ASCII fragment of the Python
behavior, which covers every header and key the program handles.
-/

/-- Whitespace characters matched by the regex class backslash-s and by
Python `str.strip` on ASCII input. -/
def isWsChar (c : Char) : Bool :=
  c == ' ' || c == '\t' || c == '\n' || c == '\r' || c == '\x0b' || c == '\x0c'

/-- Map every character to lower case, as `.str.lower()` does on ASCII. -/
def lowerL (l : List Char) : List Char := l.map Char.toLower

/-- Python `s.strip(x)` for one strip character: remove every leading and
trailing occurrence.  Trailing side first, then leading side. -/
def stripEndsL (strip : Char) (l : List Char) : List Char :=
  ((l.reverse.dropWhile (· == strip)).reverse).dropWhile (· == strip)

/-- Python `str.strip()` on a header cell: drop surrounding whitespace. -/
def pyStripL (l : List Char) : List Char :=
  ((l.dropWhile isWsChar).reverse.dropWhile isWsChar).reverse

/-- Python `str.strip()` on a string. -/
def pyStrip (s : String) : String := String.mk (pyStripL s.toList)

/-- One application of the anchored regex replace of
`^\s*https?://` by the empty string: if the text begins with optional
whitespace and then a lower-case scheme, that prefix is removed,
otherwise the text is unchanged (app.py lines 27 and 37). -/
def stripSchemeL (l : List Char) : List Char :=
  let t := l.dropWhile isWsChar
  if List.isPrefixOf ("https://".toList) t then t.drop 8
  else if List.isPrefixOf ("http://".toList) t then t.drop 7
  else l

/-- One application of the anchored regex replace of `^www\.` by the
empty string (app.py line 28). -/
def stripWwwL (l : List Char) : List Char :=
  if List.isPrefixOf ("www.".toList) l then l.drop 4 else l

/-- Core of `normalize_domain_like` on the character list of one cell:
strip scheme, strip `www.`, strip surrounding slashes, lower case
(app.py lines 23 to 31). -/
def normDomainL (l : List Char) : List Char :=
  lowerL (stripEndsL '/' (stripWwwL (stripSchemeL l)))

/-- Core of `normalize_page_url` on the character list of one cell:
strip scheme, strip surrounding slashes, lower case (app.py lines
33 to 40). -/
def normPageL (l : List Char) : List Char :=
  lowerL (stripEndsL '/' (stripSchemeL l))

/-- A cell of a string-typed pandas column: `some` text or a missing
value (NaN).  `astype(str)` renders a missing value as the text "nan". -/
def pyAstype (c : Option String) : String := c.getD "nan"

/-- Source function `normalize_domain_like` (app.py lines 23 to 31),
acting element-wise on one cell of the series. -/
def normalize_domain_like (c : Option String) : String :=
  String.mk (normDomainL (pyAstype c).toList)

/-- Source function `normalize_page_url` (app.py lines 33 to 40),
acting element-wise on one cell of the series. -/
def normalize_page_url (c : Option String) : String :=
  String.mk (normPageL (pyAstype c).toList)

/-- Lower-casing of a whole string, as Python `str.lower()` on ASCII. -/
def strLower (s : String) : String := String.mk (lowerL s.toList)

/-- The characters after the first scheme separator `://`, if one
occurs. -/
def afterSchemeSep : List Char → Option (List Char)
  | [] => none
  | c :: rest =>
      if List.isPrefixOf [':', '/', '/'] (c :: rest) then some (rest.drop 2)
      else afterSchemeSep rest

/-- Modelled from the spec: host extraction of the external `tldextract`
library (section 4.2), which the repository imports but does not
contain.  Drops an optional scheme and keeps the host up to the first
path, query, fragment or port separator. -/
def lenientHost (u : String) : List Char :=
  ((afterSchemeSep u.toList).getD u.toList).takeWhile
    (fun c => !(c == '/' || c == '?' || c == '#' || c == ':'))

/-- Split a character list on dots, as Python `"x.y".split(".")`. -/
def splitDotsL (l : List Char) : List (List Char) :=
  l.foldr
    (fun c acc =>
      if c == '.' then [] :: acc
      else
        match acc with
        | [] => [[c]]
        | a :: rest => (c :: a) :: rest)
    [[]]

/-- Modelled from the spec: the lower-cased labels of the host of a URL
or bare domain. -/
def hostLabels (u : String) : List String :=
  (splitDotsL (lowerL (lenientHost u))).map String.mk

/-- Modelled from the spec: a representative fragment of the public
suffix list used by `tldextract`, each entry given as its labels. -/
def publicSuffixList : List (List String) :=
  [["com"], ["org"], ["net"], ["io"], ["edu"], ["gov"],
   ["uk"], ["co", "uk"], ["org", "uk"], ["ac", "uk"],
   ["au"], ["com", "au"], ["jp"], ["co", "jp"]]

/-- Modelled from the spec: the index at which the longest matching
public suffix of the label list starts; the list length when no suffix
matches. -/
def suffixSplit (labels : List String) : Nat :=
  ((List.range (labels.length + 1)).find?
      (fun i => publicSuffixList.contains (labels.drop i))).getD labels.length

/-- Modelled from the spec: the `(domain, suffix)` parts of
`tldextract.extract`: the registrable label directly before the longest
matching public suffix, and that suffix; either part is empty when it
does not exist. -/
def tldextract_extract (u : String) : String × String :=
  let labels := hostLabels u
  let i := suffixSplit labels
  (((labels.take i).getLast?).getD "", String.intercalate "." (labels.drop i))

/-- Source function `extract_root_domain` (app.py lines 15 to 21): the
missing marker on a missing or blank input and whenever `tldextract`
finds no domain or no suffix, otherwise the dot-joined domain and
suffix. -/
def extract_root_domain (url : Option String) : Option String :=
  match url with
  | none => none
  | some u =>
      if pyStrip u = "" then none
      else
        let e := tldextract_extract u
        if e.1 ≠ "" ∧ e.2 ≠ "" then some (e.1 ++ "." ++ e.2) else none

/-- A numeric cell of a report, after the division: an exact rational,
a signed infinity as float division would produce on a zero divisor, or
the missing marker.  Missing floats (NaN) and the nullable marker
(pd.NA) both display as missing and are identified here. -/
inductive PdNum where
  | num (q : ℚ)
  | posInf
  | negInf
  | na
deriving DecidableEq, Repr

/-- The `.replace(0, pd.NA)` step applied to a numeric cell (app.py
lines 241 to 242 and 373 to 374). -/
def pdReplaceZeroWithNA (x : Option ℚ) : Option ℚ :=
  match x with
  | some q => if q = 0 then none else some q
  | none => none

/-- Cell-wise pandas division of two numeric cells: a missing operand
propagates, a zero divisor of a nonzero numerator would give a signed
infinity, and `0 / 0` would give a missing value. -/
def pdDiv (a b : Option ℚ) : PdNum :=
  match a, b with
  | some x, some y =>
      if y = 0 then (if x = 0 then .na else if 0 < x then .posInf else .negInf)
      else .num (x / y)
  | _, _ => .na

/-- The ratio computation of the source (app.py lines 241 to 242 and
373 to 374): numerator divided by the denominator with zeros replaced
by the missing marker first. -/
def safe_ratio (numerator denominator : Option ℚ) : PdNum :=
  pdDiv numerator (pdReplaceZeroWithNA denominator)

/-- A source table: a header row of column names and rows of string
cells (a missing cell is `none`).  This is the shape `read_csv` with
`dtype=str` produces. -/
structure DF where
  cols : List String
  rows : List (List (Option String))
deriving DecidableEq, Repr

/-- Source function `map_alias` (app.py lines 71 to 98).  Headers are
whitespace-trimmed in place first; a header equal to the canonical name
is then used as is; otherwise the first alias present among the
trimmed headers is renamed (every occurrence, as `DataFrame.rename`
does) to the canonical name; the Boolean reports whether any of this
succeeded. -/
def map_alias (df : DF) (canonical : String) (aliases : List String) : DF × Bool :=
  let cols := df.cols.map pyStrip
  if canonical ∈ cols then ({ df with cols := cols }, true)
  else
    match aliases.find? (fun a => cols.contains a) with
    | some a => ({ df with cols := cols.map (fun c => if c = a then canonical else c) }, true)
    | none => ({ df with cols := cols }, false)

/-- The inner join of `pd.merge(l, r, on=key, how="inner")`: left rows
in order, each paired with every right row carrying an equal key, in
right order. -/
def innerJoinKey {α β γ : Type} (ka : α → String) (kb : β → String)
    (comb : α → β → γ) (l : List α) (r : List β) : List γ :=
  l.flatMap (fun a => (r.filter (fun b => kb b == ka a)).map (comb a))

/-- Outcome of one processing mode: a finished report, or the stop with
the no-matching-keys warning (`st.warning` followed by `st.stop`). -/
inductive ModeOutcome (α : Type) where
  | report (rows : List α)
  | noData
deriving DecidableEq

/-- One alias-resolved row of the Ahrefs domain file, with the numeric
columns already coerced (app.py line 228). -/
structure AhrefsDomainRow where
  target : Option String
  domainRating : Option ℚ
  refDomainsDofollow : Option ℚ
  linkedDomains : Option ℚ
  totalTraffic : Option ℚ
deriving DecidableEq

/-- One row of the Majestic domain file, with the numeric columns
already coerced (app.py lines 229 to 232). -/
structure MajesticDomainRow where
  item : Option String
  trustFlow : Option ℚ
  citationFlow : Option ℚ
  topicalTopic0 : Option String
  topicalValue0 : Option ℚ
  topicalTopic1 : Option String
  topicalValue1 : Option ℚ
  topicalTopic2 : Option String
  topicalValue2 : Option ℚ
deriving DecidableEq

/-- One row of the domain-level join result, ratios included (app.py
lines 235 and 241 to 242, and lines 359 to 374 in combined mode). -/
structure DomainRow where
  dom : String
  domainRating : Option ℚ
  refDomainsDofollow : Option ℚ
  linkedDomains : Option ℚ
  totalTraffic : Option ℚ
  trustFlow : Option ℚ
  citationFlow : Option ℚ
  topicalTopic0 : Option String
  topicalValue0 : Option ℚ
  topicalTopic1 : Option String
  topicalValue1 : Option ℚ
  topicalTopic2 : Option String
  topicalValue2 : Option ℚ
  ldrdRatio : PdNum
  tfcfRatio : PdNum
deriving DecidableEq

/-- Combine one matched pair of domain-level rows, computing both
ratios. -/
def mkDomainRow (a : AhrefsDomainRow) (m : MajesticDomainRow) : DomainRow where
  dom := normalize_domain_like a.target
  domainRating := a.domainRating
  refDomainsDofollow := a.refDomainsDofollow
  linkedDomains := a.linkedDomains
  totalTraffic := a.totalTraffic
  trustFlow := m.trustFlow
  citationFlow := m.citationFlow
  topicalTopic0 := m.topicalTopic0
  topicalValue0 := m.topicalValue0
  topicalTopic1 := m.topicalTopic1
  topicalValue1 := m.topicalValue1
  topicalTopic2 := m.topicalTopic2
  topicalValue2 := m.topicalValue2
  ldrdRatio := safe_ratio a.linkedDomains a.refDomainsDofollow
  tfcfRatio := safe_ratio m.trustFlow m.citationFlow

/-- The domain-level inner join on the normalized domain key (app.py
line 235 and line 359). -/
def joinDomain (da : List AhrefsDomainRow) (dm : List MajesticDomainRow) : List DomainRow :=
  innerJoinKey (fun a => normalize_domain_like a.target)
    (fun m => normalize_domain_like m.item) mkDomainRow da dm

/-- Domain mode from the join stage on (app.py lines 235 to 274): stop
with the no-data outcome on an empty join, otherwise the report. -/
def domainModePipeline (da : List AhrefsDomainRow) (dm : List MajesticDomainRow) :
    ModeOutcome DomainRow :=
  let j := joinDomain da dm
  if j.isEmpty then .noData else .report j

/-- One alias-resolved row of the Ahrefs page file, numerics coerced
(app.py line 303). -/
structure AhrefsPageRow where
  target : Option String
  totalKeywords : Option ℚ
  totalTraffic : Option ℚ
deriving DecidableEq

/-- One row of the Majestic page file, numerics coerced (app.py
line 304). -/
structure MajesticPageRow where
  item : Option String
  trustFlow : Option ℚ
  citationFlow : Option ℚ
deriving DecidableEq

/-- One row of the page-level join result (app.py lines 306 to 311 and
400 to 405). -/
structure PageRow where
  pageURL : String
  totalKeywords : Option ℚ
  totalTraffic : Option ℚ
  trustFlow : Option ℚ
  citationFlow : Option ℚ
deriving DecidableEq

/-- Combine one matched pair of page-level rows. -/
def mkPageRow (a : AhrefsPageRow) (m : MajesticPageRow) : PageRow where
  pageURL := normalize_page_url a.target
  totalKeywords := a.totalKeywords
  totalTraffic := a.totalTraffic
  trustFlow := m.trustFlow
  citationFlow := m.citationFlow

/-- The page-level inner join on the normalized page URL key (app.py
lines 306 to 311 and 400 to 405). -/
def joinPage (pa : List AhrefsPageRow) (pm : List MajesticPageRow) : List PageRow :=
  innerJoinKey (fun a => normalize_page_url a.target)
    (fun m => normalize_page_url m.item) mkPageRow pa pm

/-- Page mode from the join stage on (app.py lines 306 to 326). -/
def pageModePipeline (pa : List AhrefsPageRow) (pm : List MajesticPageRow) :
    ModeOutcome PageRow :=
  let j := joinPage pa pm
  if j.isEmpty then .noData else .report j

/-- A page-level row together with its derived root-domain key (app.py
line 408); the key is missing when `extract_root_domain` found none. -/
structure PageKeyed where
  page : PageRow
  dom : Option String
deriving DecidableEq

/-- Attach the root-domain key to a page row:
`page["Page URL"].apply(extract_root_domain).str.lower()`. -/
def pageRootDomain (p : PageRow) : PageKeyed :=
  ⟨p, (extract_root_domain (some p.pageURL)).map strLower⟩

/-- One row of the combined report before and after the fill step: the
domain-level part plus the page-level columns, which may be missing
right after the left merge (app.py lines 410 to 440).  The page fields
model the report columns named with the `Page URL` prefix. -/
structure CombinedRow where
  d : DomainRow
  pageURL : Option String
  pageTotalKeywords : Option ℚ
  pageTotalTraffic : Option ℚ
  pageTrustFlow : Option ℚ
  pageCitationFlow : Option ℚ
deriving DecidableEq

/-- The left merge of `pd.merge(domain, page, on="Domain", how="left")`
(app.py line 410): every domain row paired with each matching page row,
or kept once with missing page fields when no page row matches; a
missing page key matches nothing. -/
def leftMergeCombined (ds : List DomainRow) (ps : List PageKeyed) : List CombinedRow :=
  ds.flatMap (fun d =>
    match ps.filter (fun p => p.dom == some d.dom) with
    | [] => [⟨d, none, none, none, none, none⟩]
    | m :: ms =>
        (m :: ms).map (fun p =>
          ⟨d, some p.page.pageURL, p.page.totalKeywords, p.page.totalTraffic,
            p.page.trustFlow, p.page.citationFlow⟩))

/-- The fill step after the left merge (app.py lines 413 to 416): the
page URL falls back to the empty string and every numeric page field to
zero. -/
def fillCombined (c : CombinedRow) : CombinedRow :=
  { c with
    pageURL := some (c.pageURL.getD ""),
    pageTotalKeywords := some (c.pageTotalKeywords.getD 0),
    pageTotalTraffic := some (c.pageTotalTraffic.getD 0),
    pageTrustFlow := some (c.pageTrustFlow.getD 0),
    pageCitationFlow := some (c.pageCitationFlow.getD 0) }

/-- The combined report rows built from the domain-level join result
and the keyed page rows (app.py lines 410 to 440). -/
def combinedTail (ds : List DomainRow) (ps : List PageKeyed) : List CombinedRow :=
  (leftMergeCombined ds ps).map fillCombined

/-- Combined mode from the join stage on (app.py lines 359 to 444):
stop with the no-data outcome when the domain-level join is empty; the
page-level join result, empty or not, is keyed by root domain and
left-merged onto the domain rows. -/
def combinedModePipeline (da : List AhrefsDomainRow) (dm : List MajesticDomainRow)
    (pa : List AhrefsPageRow) (pm : List MajesticPageRow) : ModeOutcome CombinedRow :=
  let dj := joinDomain da dm
  if dj.isEmpty then .noData
  else .report (combinedTail dj ((joinPage pa pm).map pageRootDomain))

/-- Test whether the first character, if any, is not whitespace. -/
def headNotWs (l : List Char) : Bool :=
  match l.head? with
  | none => true
  | some c => !isWsChar c

/-- A well-formed bare domain body, stated on its lower-cased
characters: no colon, no slash, no leading `www.`, no leading
whitespace.  Real domain names satisfy all four. -/
def goodBody (b : List Char) : Prop :=
  ':' ∉ lowerL b ∧ '/' ∉ lowerL b ∧
  List.isPrefixOf ("www.".toList) (lowerL b) = false ∧
  headNotWs (lowerL b) = true

instance (b : List Char) : Decidable (goodBody b) := by
  unfold goodBody
  infer_instance

/-- A decoration of a bare domain body: an optional lower-case scheme,
an optional lower-case `www.` prefix, the body, an optional trailing
slash. -/
def decorateL (s : List Char) (w k : Bool) (b : List Char) : String :=
  String.mk (s ++ ((if w then "www.".toList else []) ++ (b ++ (if k then ['/'] else []))))

/-- Sample Ahrefs domain row: linked domains left missing so both
ratios are the missing marker on concrete evaluations. -/
def aDomEx : AhrefsDomainRow := ⟨some "example.com/", some 50, some 10, none, some 1000⟩

/-- Sample Majestic domain row, trust flow left missing. -/
def mDomEx : MajesticDomainRow :=
  ⟨some "https://example.com", none, some 15, none, none, none, none, none, none⟩

/-- The joined domain row of the two sample rows. -/
def dRowEx : DomainRow := mkDomainRow aDomEx mDomEx

/-! General helper lemmas on characters and lists. -/

theorem toNat_ofNat_valid {n : Nat} (h : Nat.isValidChar n) : (Char.ofNat n).toNat = n := by
  rw [Char.ofNat, dif_pos h]
  rfl

theorem toLower_toLower (c : Char) : c.toLower.toLower = c.toLower := by
  unfold Char.toLower
  by_cases h : c.toNat ≥ 65 ∧ c.toNat ≤ 90
  · rw [if_pos h]
    have ht : (Char.ofNat (c.toNat + 32)).toNat = c.toNat + 32 :=
      toNat_ofNat_valid (Or.inl (by omega))
    rw [if_neg]
    omega
  · rw [if_neg h, if_neg h]

theorem toLower_eq_iff_not_alpha {c x : Char}
    (hx : x.toNat < 65 ∨ (90 < x.toNat ∧ x.toNat < 97) ∨ 122 < x.toNat) :
    Char.toLower c = x ↔ c = x := by
  unfold Char.toLower
  by_cases h : c.toNat ≥ 65 ∧ c.toNat ≤ 90
  · rw [if_pos h]
    have ht : (Char.ofNat (c.toNat + 32)).toNat = c.toNat + 32 :=
      toNat_ofNat_valid (Or.inl (by omega))
    constructor
    · intro he
      exfalso
      have := congrArg Char.toNat he
      rw [ht] at this
      omega
    · intro he
      exfalso
      subst he
      omega
  · rw [if_neg h]

theorem beq_toLower_not_alpha (c x : Char)
    (hx : x.toNat < 65 ∨ (90 < x.toNat ∧ x.toNat < 97) ∨ 122 < x.toNat) :
    (Char.toLower c == x) = (c == x) := by
  cases hcx : c == x with
  | true =>
      have : c = x := beq_iff_eq.mp hcx
      subst this
      exact beq_iff_eq.mpr ((toLower_eq_iff_not_alpha hx).mpr rfl)
  | false =>
      exact beq_eq_false_iff_ne.mpr
        (fun he => (beq_eq_false_iff_ne.mp hcx) ((toLower_eq_iff_not_alpha hx).mp he))

theorem isWsChar_toLower (c : Char) : isWsChar c.toLower = isWsChar c := by
  simp only [isWsChar]
  rw [beq_toLower_not_alpha c ' ' (by decide), beq_toLower_not_alpha c '\t' (by decide),
    beq_toLower_not_alpha c '\n' (by decide), beq_toLower_not_alpha c '\r' (by decide),
    beq_toLower_not_alpha c '\x0b' (by decide), beq_toLower_not_alpha c '\x0c' (by decide)]

theorem mem_lowerL_not_alpha {x : Char} (b : List Char)
    (hx : x.toNat < 65 ∨ (90 < x.toNat ∧ x.toNat < 97) ∨ 122 < x.toNat) :
    x ∈ lowerL b ↔ x ∈ b := by
  simp only [lowerL, List.mem_map]
  constructor
  · rintro ⟨c, hc, he⟩
    rwa [(toLower_eq_iff_not_alpha hx).mp he] at hc
  · intro hxb
    exact ⟨x, hxb, (toLower_eq_iff_not_alpha hx).mpr rfl⟩

theorem lowerL_idem (b : List Char) : lowerL (lowerL b) = lowerL b := by
  simp only [lowerL, List.map_map]
  exact List.map_congr_left (fun c _ => toLower_toLower c)

theorem dropWhile_append_all {α : Type} (p : α → Bool) (x y : List α)
    (h : ∀ c ∈ x, p c = true) : (x ++ y).dropWhile p = y.dropWhile p := by
  induction x with
  | nil => rfl
  | cons c t ih =>
      simp only [List.cons_append, List.dropWhile_cons, h c (by simp)]
      exact ih (fun d hd => h d (by simp [hd]))

theorem dropWhile_eq_self_all {α : Type} (p : α → Bool) (l : List α)
    (h : ∀ c ∈ l, p c = false) : l.dropWhile p = l := by
  cases l with
  | nil => rfl
  | cons c t => simp [List.dropWhile_cons, h c (by simp)]

theorem dropWhile_idem {α : Type} (p : α → Bool) (l : List α) :
    (l.dropWhile p).dropWhile p = l.dropWhile p := by
  induction l with
  | nil => rfl
  | cons c t ih =>
      cases hc : p c with
      | true => simp [List.dropWhile_cons, hc, ih]
      | false => simp [List.dropWhile_cons, hc]

theorem dropWhile_eq_self_of_front {α : Type} (p : α → Bool) {A B : List α}
    (hA : A.dropWhile p = A) (hBA : B <+: A) : B.dropWhile p = B := by
  obtain ⟨t, rfl⟩ := hBA
  cases B with
  | nil => rfl
  | cons c B2 =>
      have hc : p c = false := by
        cases hc : p c with
        | false => rfl
        | true =>
            exfalso
            rw [List.cons_append, List.dropWhile_cons, hc, if_pos rfl] at hA
            have hlen : ((B2 ++ t).dropWhile p).length = (B2 ++ t).length + 1 := by
              rw [hA, List.length_cons]
            have hle : ((B2 ++ t).dropWhile p).length ≤ (B2 ++ t).length :=
              (List.dropWhile_suffix p).length_le
            omega
      simp [List.dropWhile_cons, hc]

theorem pyStripL_idem (l : List Char) : pyStripL (pyStripL l) = pyStripL l := by
  unfold pyStripL
  have hA : (l.dropWhile isWsChar).dropWhile isWsChar = l.dropWhile isWsChar :=
    dropWhile_idem _ _
  have hBsuff : (l.dropWhile isWsChar).reverse.dropWhile isWsChar <:+
      (l.dropWhile isWsChar).reverse := List.dropWhile_suffix _
  have hBA : ((l.dropWhile isWsChar).reverse.dropWhile isWsChar).reverse <+:
      l.dropWhile isWsChar := by
    obtain ⟨t, ht⟩ := hBsuff
    exact ⟨t.reverse, by rw [← List.reverse_append, ht, List.reverse_reverse]⟩
  rw [dropWhile_eq_self_of_front isWsChar hA hBA, List.reverse_reverse, dropWhile_idem]

theorem pyStrip_idem (s : String) : pyStrip (pyStrip s) = pyStrip s :=
  congrArg String.mk (pyStripL_idem s.toList)

theorem stripped_map_idem (l : List String) :
    (l.map pyStrip).map pyStrip = l.map pyStrip := by
  rw [List.map_map]
  exact List.map_congr_left (fun s _ => pyStrip_idem s)

/-! Claim theorems, witnesses and counterexamples. -/

/-- Claim C4, confirmed: for every joined row, a zero or missing
denominator makes the computed ratio the missing marker, and the ratio
computation is total and never yields a positive or negative infinity.
Numeric cells are modelled as exact rationals. -/
theorem C4_theorem (numerator denominator : Option ℚ) :
    ((denominator = some 0 ∨ denominator = none) →
      safe_ratio numerator denominator = PdNum.na) ∧
    safe_ratio numerator denominator ≠ PdNum.posInf ∧
    safe_ratio numerator denominator ≠ PdNum.negInf := by
  have hval : safe_ratio numerator denominator = PdNum.na ∨
      ∃ q, safe_ratio numerator denominator = PdNum.num q := by
    cases numerator with
    | none =>
        left
        cases denominator with
        | none => rfl
        | some y =>
            by_cases hy : y = 0 <;> simp [safe_ratio, pdReplaceZeroWithNA, hy, pdDiv]
    | some x =>
        cases denominator with
        | none => left; rfl
        | some y =>
            by_cases hy : y = 0
            · left
              simp [safe_ratio, pdReplaceZeroWithNA, hy, pdDiv]
            · right
              exact ⟨x / y, by simp [safe_ratio, pdReplaceZeroWithNA, hy, pdDiv]⟩
  refine ⟨?_, ?_, ?_⟩
  · rintro (rfl | rfl)
    · cases numerator <;> simp [safe_ratio, pdReplaceZeroWithNA, pdDiv]
    · cases numerator <;> rfl
  · rcases hval with h | ⟨q, h⟩ <;> rw [h] <;> simp
  · rcases hval with h | ⟨q, h⟩ <;> rw [h] <;> simp

/-- Witness for C4 at the inputs of the spec example: linked domains 5,
dofollow referring domains 0. -/
theorem C4_witness :
    safe_ratio (some 5) (some 0) = PdNum.na ∧
    safe_ratio (some 5) (some 0) ≠ PdNum.posInf := by
  have h := C4_theorem (some 5) (some 0)
  exact ⟨h.1 (Or.inl rfl), h.2.1⟩

/-- Claim C6, confirmed against the spec-modelled `tldextract`: the
mixed-case blog URL maps to the lower-cased registrable domain, and an
address with no recognizable public suffix maps to the missing
marker. -/
theorem C6_theorem :
    extract_root_domain (some "https://blog.Example.co.uk/x") = some "example.co.uk" ∧
    extract_root_domain (some "192.168.0.1") = none :=
  ⟨rfl, rfl⟩

/-- Counterexample to C7 as stated: a missing (non-string) cell is cast
by `astype(str)` to the text "nan", so its key is "nan" rather than the
empty key, and it collides with the key of a real cell reading "NAN". -/
theorem C7_counterexample :
    normalize_domain_like none = "nan" ∧ normalize_page_url none = "nan" ∧
    normalize_domain_like none ≠ "" ∧
    normalize_domain_like none = normalize_domain_like (some "NAN") := by
  exact ⟨rfl, rfl, by decide, rfl⟩

/-- Claim C7, corrected: both normalizers are total, but a missing
(non-string) cell is first cast to the text "nan" and normalized like
any other string, so it yields the key "nan", not the empty key; only
the empty string yields the empty key. -/
theorem C7_theorem :
    (∀ c : Option String,
      normalize_domain_like c = normalize_domain_like (some (pyAstype c)) ∧
      normalize_page_url c = normalize_page_url (some (pyAstype c))) ∧
    normalize_domain_like none = "nan" ∧ normalize_page_url none = "nan" ∧
    normalize_domain_like (some "") = "" ∧ normalize_page_url (some "") = "" :=
  ⟨fun _ => ⟨rfl, rfl⟩, rfl, rfl, rfl, rfl⟩

/-- Unfolding characterization of `map_alias`, by definition. -/
theorem map_alias_eq (df : DF) (canonical : String) (aliases : List String) :
    map_alias df canonical aliases =
      if canonical ∈ df.cols.map pyStrip then
        ({ df with cols := df.cols.map pyStrip }, true)
      else
        match aliases.find? (fun a => (df.cols.map pyStrip).contains a) with
        | some a =>
            ({ df with cols :=
                (df.cols.map pyStrip).map (fun c => if c = a then canonical else c) }, true)
        | none => ({ df with cols := df.cols.map pyStrip }, false) := rfl

/-- Counterexample to C9 as stated: with header " Foo " and no matching
canonical name or alias, `map_alias` still returns found equal to false
but has trimmed the header, so the table is not left unchanged. -/
theorem C9_counterexample :
    (map_alias ⟨[" Foo "], [[some "x"]]⟩ "Bar" ["Baz"]).2 = false ∧
    (map_alias ⟨[" Foo "], [[some "x"]]⟩ "Bar" ["Baz"]).1 ≠ ⟨[" Foo "], [[some "x"]]⟩ := by
  decide

/-- Claim C9, corrected: when neither the canonical name nor any alias
is present among the trimmed headers, `map_alias` returns found equal
to false and leaves the table unchanged except that every header is
whitespace-trimmed; the rows are untouched, and a table whose headers
carry no surrounding whitespace is fully unchanged. -/
theorem C9_theorem (df : DF) (canonical : String) (aliases : List String)
    (hc : canonical ∉ df.cols.map pyStrip)
    (ha : ∀ a ∈ aliases, a ∉ df.cols.map pyStrip) :
    map_alias df canonical aliases = ({ df with cols := df.cols.map pyStrip }, false) ∧
    (map_alias df canonical aliases).1.rows = df.rows ∧
    (df.cols.map pyStrip = df.cols → (map_alias df canonical aliases).1 = df) := by
  have hfind : aliases.find? (fun a => (df.cols.map pyStrip).contains a) = none := by
    rw [List.find?_eq_none]
    intro x hx hcont
    exact ha x hx (List.elem_iff.mp hcont)
  have hmain : map_alias df canonical aliases =
      ({ df with cols := df.cols.map pyStrip }, false) := by
    rw [map_alias_eq, if_neg hc, hfind]
  refine ⟨hmain, by rw [hmain], fun h => ?_⟩
  rw [hmain]
  show ({ df with cols := df.cols.map pyStrip } : DF) = df
  rw [h]

/-- Witness for C9 on a table with an already-trimmed header. -/
theorem C9_witness :
    map_alias ⟨["Foo"], [[some "x"]]⟩ "Bar" ["Baz"] = (⟨["Foo"], [[some "x"]]⟩, false) := by
  have h0 := C9_theorem ⟨["Foo"], [[some "x"]]⟩ "Bar" ["Baz"] (by decide) (by decide)
  have h := h0.1
  rw [h]
  decide

/-- Counterexample to C10 as stated: with canonical name " X " (note
the surrounding whitespace) and header A renamed by the first call, the
second call trims the renamed header and no longer finds anything, so
the second application changes the table again and flips found. -/
theorem C10_counterexample :
    map_alias (map_alias ⟨["A"], []⟩ " X " ["A"]).1 " X " ["A"] ≠
      map_alias ⟨["A"], []⟩ " X " ["A"] := by
  decide

/-- Claim C10, corrected: `map_alias` is idempotent for every table and
alias list provided the canonical name carries no surrounding
whitespace (it is its own trim); the counterexample shows some
restriction is needed. -/
theorem C10_theorem (df : DF) (canonical : String) (aliases : List String)
    (hcan : pyStrip canonical = canonical) :
    map_alias (map_alias df canonical aliases).1 canonical aliases =
      map_alias df canonical aliases := by
  by_cases hc : canonical ∈ df.cols.map pyStrip
  · have h1 : map_alias df canonical aliases =
        ({ df with cols := df.cols.map pyStrip }, true) := by
      rw [map_alias_eq, if_pos hc]
    rw [h1]
    show map_alias ⟨df.cols.map pyStrip, df.rows⟩ canonical aliases = _
    rw [map_alias_eq]
    dsimp only
    rw [stripped_map_idem, if_pos hc]
  · cases hfind : aliases.find? (fun a => (df.cols.map pyStrip).contains a) with
    | none =>
        have h1 : map_alias df canonical aliases =
            ({ df with cols := df.cols.map pyStrip }, false) := by
          rw [map_alias_eq, if_neg hc, hfind]
        rw [h1]
        show map_alias ⟨df.cols.map pyStrip, df.rows⟩ canonical aliases = _
        rw [map_alias_eq]
        dsimp only
        rw [stripped_map_idem, if_neg hc, hfind]
    | some a =>
        have hconta : ((df.cols.map pyStrip).contains a) = true := List.find?_some hfind
        have hamem : a ∈ df.cols.map pyStrip := List.elem_iff.mp hconta
        have h1 : map_alias df canonical aliases =
            ({ df with cols :=
                (df.cols.map pyStrip).map (fun c => if c = a then canonical else c) }, true) := by
          rw [map_alias_eq, if_neg hc, hfind]
        rw [h1]
        have hstrip2 :
            (((df.cols.map pyStrip).map (fun c => if c = a then canonical else c)).map pyStrip) =
              (df.cols.map pyStrip).map (fun c => if c = a then canonical else c) := by
          rw [List.map_map]
          refine List.map_congr_left ?_
          intro x hx
          by_cases hxa : x = a
          · simp [Function.comp, hxa, hcan]
          · obtain ⟨y, _, rfl⟩ := List.mem_map.mp hx
            simp [Function.comp, hxa, pyStrip_idem y]
        have hcmem : canonical ∈
            (df.cols.map pyStrip).map (fun c => if c = a then canonical else c) :=
          List.mem_map.mpr ⟨a, hamem, by simp⟩
        show map_alias
            ⟨(df.cols.map pyStrip).map (fun c => if c = a then canonical else c), df.rows⟩
            canonical aliases = _
        rw [map_alias_eq]
        dsimp only
        rw [hstrip2, if_pos hcmem]

/-- Witness for C10 with a whitespace-free canonical name. -/
theorem C10_witness :
    map_alias (map_alias ⟨["Organic traffic"], []⟩ "Total Traffic" ["Organic traffic"]).1
        "Total Traffic" ["Organic traffic"] =
      map_alias ⟨["Organic traffic"], []⟩ "Total Traffic" ["Organic traffic"] :=
  C10_theorem ⟨["Organic traffic"], []⟩ "Total Traffic" ["Organic traffic"] (by decide)

theorem find?_first {α : Type} (p : α → Bool) (pre post : List α) (a : α)
    (hpre : ∀ x ∈ pre, p x = false) (ha : p a = true) :
    (pre ++ a :: post).find? p = some a := by
  induction pre with
  | nil => simp [List.find?_cons, ha]
  | cons x t ih =>
      have hx : p x = false := hpre x (by simp)
      simp only [List.cons_append, List.find?_cons, hx]
      exact ih (fun y hy => hpre y (by simp [hy]))

/-- Claim C5, confirmed: a trimmed header equal to the canonical name
is used without consulting the alias list (the outcome is the same as
with an empty alias list); otherwise the first present alias, in
declaration order, is renamed to the canonical name and later aliases
are ignored; and with nothing present the function reports found equal
to false. -/
theorem C5_theorem (df : DF) (canonical a : String) (aliases pre post : List String) :
    (canonical ∈ df.cols.map pyStrip →
      (map_alias df canonical aliases).2 = true ∧
      map_alias df canonical aliases = map_alias df canonical []) ∧
    (canonical ∉ df.cols.map pyStrip → (∀ x ∈ pre, x ∉ df.cols.map pyStrip) →
      a ∈ df.cols.map pyStrip →
      map_alias df canonical (pre ++ a :: post) =
        ({ df with cols :=
            (df.cols.map pyStrip).map (fun c => if c = a then canonical else c) }, true)) ∧
    (canonical ∉ df.cols.map pyStrip → (∀ x ∈ aliases, x ∉ df.cols.map pyStrip) →
      map_alias df canonical aliases = ({ df with cols := df.cols.map pyStrip }, false)) := by
  refine ⟨fun hc => ?_, fun hc hpre ha => ?_, fun hc hnone => ?_⟩
  · constructor
    · rw [map_alias_eq, if_pos hc]
    · rw [map_alias_eq, if_pos hc, map_alias_eq, if_pos hc]
  · have hfind : (pre ++ a :: post).find? (fun x => (df.cols.map pyStrip).contains x) = some a :=
      find?_first _ pre post a
        (fun x hx => Bool.eq_false_iff.mpr (fun hcx => hpre x hx (List.elem_iff.mp hcx)))
        (List.elem_iff.mpr ha)
    rw [map_alias_eq, if_neg hc, hfind]
  · have hfind : aliases.find? (fun x => (df.cols.map pyStrip).contains x) = none := by
      rw [List.find?_eq_none]
      intro x hx hcx
      exact hnone x hx (List.elem_iff.mp hcx)
    rw [map_alias_eq, if_neg hc, hfind]

/-- Witness for C5 on the spec example: canonical Total Traffic, the
alias Organic / Traffic present, an earlier absent alias and a later
alias that is ignored. -/
theorem C5_witness :
    map_alias ⟨["Organic / Traffic"], []⟩ "Total Traffic"
        (["Total Traffic", "Organic traffic"] ++ "Organic / Traffic" :: ["Traffic"]) =
      (⟨["Total Traffic"], []⟩, true) := by
  have h0 := C5_theorem ⟨["Organic / Traffic"], []⟩ "Total Traffic" "Organic / Traffic" []
      ["Total Traffic", "Organic traffic"] ["Traffic"]
  have h := h0.2.1 (by decide) (by decide) (by decide)
  rw [h]
  decide

theorem innerJoin_count {α β : Type} (ka : α → String) (kb : β → String)
    (la : List α) (rb : List β) (k : String) :
    ((innerJoinKey ka kb Prod.mk la rb).filter (fun p => ka p.1 == k)).length =
      (la.filter (fun x => ka x == k)).length * (rb.filter (fun y => kb y == k)).length := by
  induction la with
  | nil => simp [innerJoinKey]
  | cons x t ih =>
      have hblock : innerJoinKey ka kb Prod.mk (x :: t) rb =
          ((rb.filter (fun b => kb b == ka x)).map (Prod.mk x)) ++
            innerJoinKey ka kb Prod.mk t rb := by
        simp [innerJoinKey]
      rw [hblock, List.filter_append, List.length_append, List.filter_map, List.length_map]
      by_cases hxk : (ka x == k) = true
      · have hc1 : ((rb.filter (fun b => kb b == ka x)).filter
            ((fun p => ka p.1 == k) ∘ Prod.mk x)) = rb.filter (fun b => kb b == ka x) := by
          apply List.filter_eq_self.mpr
          intro y _
          simpa [Function.comp] using hxk
        have hc2 : rb.filter (fun b => kb b == ka x) = rb.filter (fun y => kb y == k) := by
          rw [beq_iff_eq.mp hxk]
        have hc3 : (List.filter (fun x => ka x == k) (x :: t)).length =
            (List.filter (fun x => ka x == k) t).length + 1 := by
          simp [List.filter_cons, hxk]
        rw [hc1, hc2, hc3, ih]
        ring
      · have hxkf : (ka x == k) = false := by
          revert hxk
          cases (ka x == k) <;> simp
        have hc1 : ((rb.filter (fun b => kb b == ka x)).filter
            ((fun p => ka p.1 == k) ∘ Prod.mk x)) = [] := by
          apply List.filter_eq_nil_iff.mpr
          intro y _
          simp [Function.comp, hxkf]
        have hc3 : List.filter (fun x => ka x == k) (x :: t) =
            List.filter (fun x => ka x == k) t := by
          simp [List.filter_cons, hxkf]
        rw [hc1, hc3, ih]
        simp

/-- Claim C8, confirmed: with duplicate-free key columns a, b, c on the
left and b, c, d on the right, the inner join carries exactly the keys
b and c, once each; in general the number of joined rows per key is the
product of the per-side multiplicities, so a one-sided key yields no
row and duplicated keys yield the cross product. -/
theorem C8_theorem {α β : Type} (ka : α → String) (kb : β → String)
    (la : List α) (rb : List β) (a b c d : String)
    (hab : a ≠ b) (hac : a ≠ c) (had : a ≠ d) (hbc : b ≠ c) (hbd : b ≠ d) (hcd : c ≠ d)
    (hl : la.map ka = [a, b, c]) (hr : rb.map kb = [b, c, d]) :
    (innerJoinKey ka kb Prod.mk la rb).map (fun p => ka p.1) = [b, c] ∧
    ∀ k : String,
      ((innerJoinKey ka kb Prod.mk la rb).filter (fun p => ka p.1 == k)).length =
        (la.filter (fun x => ka x == k)).length * (rb.filter (fun y => kb y == k)).length := by
  refine ⟨?_, fun k => innerJoin_count ka kb la rb k⟩
  rcases la with _ | ⟨x1, _ | ⟨x2, _ | ⟨x3, _ | ⟨x4, la4⟩⟩⟩⟩ <;> simp at hl
  rcases rb with _ | ⟨y1, _ | ⟨y2, _ | ⟨y3, _ | ⟨y4, rb4⟩⟩⟩⟩ <;> simp at hr
  obtain ⟨e1, e2, e3⟩ := hl
  obtain ⟨f1, f2, f3⟩ := hr
  simp [innerJoinKey, List.filter_cons, e1, e2, e3, f1, f2, f3,
    hab, hac, had, hbc, hbd, hcd,
    Ne.symm hab, Ne.symm hac, Ne.symm had, Ne.symm hbc, Ne.symm hbd, Ne.symm hcd]

/-- Witness for C8 at concrete single-character keys. -/
theorem C8_witness :
    (innerJoinKey (fun s : String => s) (fun s : String => s) Prod.mk
        ["a", "b", "c"] ["b", "c", "d"]).map (fun p => p.1) = ["b", "c"] := by
  have h0 := C8_theorem (fun s : String => s) (fun s : String => s)
      ["a", "b", "c"] ["b", "c", "d"] "a" "b" "c" "d"
      (by decide) (by decide) (by decide) (by decide) (by decide) (by decide) rfl rfl
  exact h0.1

/-- Counterexample to C1 as stated: in combined mode with no page rows
at all, the sample domain row still appears, but its page fields hold
the empty string and zero, not the missing marker (the fill step
overwrites the markers the left join produced). -/
theorem C1_counterexample :
    combinedModePipeline [aDomEx] [mDomEx] [] [] =
      ModeOutcome.report [⟨dRowEx, some "", some 0, some 0, some 0, some 0⟩] ∧
    (some (0 : ℚ)) ≠ (none : Option ℚ) := by
  exact ⟨by decide, by decide⟩

/-- Claim C1, corrected: every row of the domain-level join result
appears in the combined report, and a domain row matched by no page row
appears exactly as one report row whose page fields hold the empty
string (page URL) and zero (numeric page fields) rather than the
missing marker. -/
theorem C1_theorem (ds : List DomainRow) (ps : List PageKeyed) :
    (∀ d ∈ ds, ∃ cr ∈ combinedTail ds ps, cr.d = d) ∧
    (∀ d ∈ ds, ps.filter (fun p => p.dom == some d.dom) = [] →
      (⟨d, some "", some 0, some 0, some 0, some 0⟩ : CombinedRow) ∈ combinedTail ds ps) := by
  constructor
  · intro d hd
    cases hm : ps.filter (fun p => p.dom == some d.dom) with
    | nil =>
        refine ⟨⟨d, some "", some 0, some 0, some 0, some 0⟩, ?_, rfl⟩
        unfold combinedTail
        refine List.mem_map.mpr ⟨⟨d, none, none, none, none, none⟩, ?_, rfl⟩
        unfold leftMergeCombined
        refine List.mem_flatMap.mpr ⟨d, hd, ?_⟩
        rw [hm]
        simp
    | cons m ms =>
        refine ⟨fillCombined ⟨d, some m.page.pageURL, m.page.totalKeywords,
          m.page.totalTraffic, m.page.trustFlow, m.page.citationFlow⟩, ?_, rfl⟩
        unfold combinedTail
        refine List.mem_map.mpr ⟨⟨d, some m.page.pageURL, m.page.totalKeywords,
          m.page.totalTraffic, m.page.trustFlow, m.page.citationFlow⟩, ?_, rfl⟩
        unfold leftMergeCombined
        refine List.mem_flatMap.mpr ⟨d, hd, ?_⟩
        rw [hm]
        exact List.mem_map.mpr ⟨m, by simp, rfl⟩
  · intro d hd hm
    unfold combinedTail
    refine List.mem_map.mpr ⟨⟨d, none, none, none, none, none⟩, ?_, rfl⟩
    unfold leftMergeCombined
    refine List.mem_flatMap.mpr ⟨d, hd, ?_⟩
    rw [hm]
    simp

/-- Witness for C1 with the sample domain row and no page rows. -/
theorem C1_witness :
    (⟨dRowEx, some "", some 0, some 0, some 0, some 0⟩ : CombinedRow) ∈
      combinedTail [dRowEx] [] := by
  have h0 := C1_theorem [dRowEx] []
  exact h0.2 dRowEx (List.mem_singleton.mpr rfl) rfl

/-- Counterexample to C3 as stated: in combined mode the page-level
inner join is empty (no Majestic page rows at all), yet processing does
not stop; a combined report is still produced. -/
theorem C3_counterexample :
    joinPage [⟨some "other.org/p", some 1, some 2⟩] [] = [] ∧
    combinedModePipeline [aDomEx] [mDomEx] [⟨some "other.org/p", some 1, some 2⟩] [] ≠
      ModeOutcome.noData := by
  exact ⟨rfl, by decide⟩

/-- Claim C3, corrected: an empty inner join stops processing with the
no-data outcome in domain mode, in page mode, and for the domain-level
join of combined mode; the page-level join inside combined mode however
has no emptiness check, and a report is produced anyway (see the
counterexample). -/
theorem C3_theorem :
    (∀ (da : List AhrefsDomainRow) (dm : List MajesticDomainRow),
      joinDomain da dm = [] → domainModePipeline da dm = ModeOutcome.noData) ∧
    (∀ (pa : List AhrefsPageRow) (pm : List MajesticPageRow),
      joinPage pa pm = [] → pageModePipeline pa pm = ModeOutcome.noData) ∧
    (∀ (da : List AhrefsDomainRow) (dm : List MajesticDomainRow)
      (pa : List AhrefsPageRow) (pm : List MajesticPageRow),
      joinDomain da dm = [] → combinedModePipeline da dm pa pm = ModeOutcome.noData) := by
  refine ⟨fun da dm h => ?_, fun pa pm h => ?_, fun da dm pa pm h => ?_⟩
  · simp only [domainModePipeline]
    rw [h]
    rfl
  · simp only [pageModePipeline]
    rw [h]
    rfl
  · simp only [combinedModePipeline]
    rw [h]
    rfl

/-- Witness for C3 on empty upload tables. -/
theorem C3_witness : domainModePipeline [] [] = ModeOutcome.noData :=
  C3_theorem.1 [] [] rfl

theorem isPrefixOf_append_self {α : Type} [BEq α] [LawfulBEq α] (p t : List α) :
    List.isPrefixOf p (p ++ t) = true := by
  induction p with
  | nil => simp
  | cons a as ih => simp [List.isPrefixOf_cons₂, ih]

theorem stripScheme_http (t : List Char) : stripSchemeL ("http://".toList ++ t) = t := by
  show stripSchemeL ('h' :: 't' :: 't' :: 'p' :: ':' :: '/' :: '/' ::t) = t
  have hd : ('h' :: 't' :: 't' :: 'p' :: ':' :: '/' :: '/' ::t).dropWhile isWsChar =
      'h' :: 't' :: 't' :: 'p' :: ':' :: '/' :: '/' ::t := by
    simp [List.dropWhile_cons, isWsChar]
  have h1 : List.isPrefixOf ("https://".toList) ('h' :: 't' :: 't' :: 'p' :: ':' :: '/' :: '/' ::t) = false := by
    simp [List.isPrefixOf_cons₂]
  have h2 : List.isPrefixOf ("http://".toList) ('h' :: 't' :: 't' :: 'p' :: ':' :: '/' :: '/' ::t) = true := by
    simp [List.isPrefixOf_cons₂]
  simp only [stripSchemeL, hd, h1, h2]
  simp

theorem stripScheme_https (t : List Char) : stripSchemeL ("https://".toList ++ t) = t := by
  show stripSchemeL ('h' :: 't' :: 't' :: 'p' :: 's' :: ':' :: '/' :: '/' ::t) = t
  have hd : ('h' :: 't' :: 't' :: 'p' :: 's' :: ':' :: '/' :: '/' ::t).dropWhile isWsChar =
      'h' :: 't' :: 't' :: 'p' :: 's' :: ':' :: '/' :: '/' ::t := by
    simp [List.dropWhile_cons, isWsChar]
  have h1 : List.isPrefixOf ("https://".toList) ('h' :: 't' :: 't' :: 'p' :: 's' :: ':' :: '/' :: '/' ::t) = true := by
    simp [List.isPrefixOf_cons₂]
  simp only [stripSchemeL, hd, h1]
  simp

theorem stripScheme_w (t : List Char) : stripSchemeL ('w' :: t) = 'w' :: t := by
  have hd : ('w' ::t).dropWhile isWsChar = 'w' ::t := by
    simp [List.dropWhile_cons, isWsChar]
  have h1 : List.isPrefixOf ("https://".toList) ('w' ::t) = false := by
    simp [List.isPrefixOf_cons₂]
  have h2 : List.isPrefixOf ("http://".toList) ('w' ::t) = false := by
    simp [List.isPrefixOf_cons₂]
  simp [stripSchemeL, hd, h1, h2]

theorem stripScheme_no_colon (l : List Char) (hcolon : ':' ∉ l)
    (hhead : headNotWs l = true) : stripSchemeL l = l := by
  have hd : l.dropWhile isWsChar = l := by
    cases l with
    | nil => rfl
    | cons c t =>
        have hc : isWsChar c = false := by simpa [headNotWs] using hhead
        simp [List.dropWhile_cons, hc]
  have h1 : List.isPrefixOf ("https://".toList) l = false := by
    cases hp : List.isPrefixOf ("https://".toList) l with
    | false => rfl
    | true =>
        exact absurd ((List.isPrefixOf_iff_prefix.mp hp).subset (by simp)) hcolon
  have h2 : List.isPrefixOf ("http://".toList) l = false := by
    cases hp : List.isPrefixOf ("http://".toList) l with
    | false => rfl
    | true =>
        exact absurd ((List.isPrefixOf_iff_prefix.mp hp).subset (by simp)) hcolon
  simp only [stripSchemeL]
  rw [hd, h1, h2]
  simp

theorem prefix_slashfree {p b r : List Char} (hp : p <+: b ++ r) (hps : '/' ∉ p)
    (hr : ∀ x ∈ r, x = '/') : p <+: b := by
  by_cases hlen : p.length ≤ b.length
  · exact List.prefix_of_prefix_length_le hp (List.prefix_append b r) hlen
  · exfalso
    have hbp : b <+: p :=
      List.prefix_of_prefix_length_le (List.prefix_append b r) hp (by omega)
    obtain ⟨t, rfl⟩ := hbp
    obtain ⟨u, hu⟩ := hp
    rw [List.append_assoc] at hu
    have htu : t ++ u = r := List.append_cancel_left hu
    cases t with
    | nil => simp at hlen
    | cons c t2 =>
        have hcr : c ∈ r := by
          rw [← htu]
          simp
        have hc : c = '/' := hr c hcr
        subst hc
        exact hps (by simp)

theorem stripWww_www (t : List Char) : stripWwwL ("www.".toList ++ t) = t := by
  unfold stripWwwL
  rw [isPrefixOf_append_self, if_pos rfl]
  rfl

theorem stripWww_not (l : List Char) (h : List.isPrefixOf ("www.".toList) l = false) :
    stripWwwL l = l := by
  simp only [stripWwwL]
  rw [h]
  simp

theorem stripEnds_slash (b r : List Char) (hb : '/' ∉ b) (hr : ∀ x ∈ r, x = '/') :
    stripEndsL '/' (b ++ r) = b := by
  unfold stripEndsL
  rw [List.reverse_append]
  have h1 : (r.reverse ++ b.reverse).dropWhile (· == '/') = b.reverse.dropWhile (· == '/') :=
    dropWhile_append_all _ _ _ (fun c hc => beq_iff_eq.mpr (hr c (List.mem_reverse.mp hc)))
  rw [h1]
  have h2 : b.reverse.dropWhile (· == '/') = b.reverse :=
    dropWhile_eq_self_all _ _ (fun c hc =>
      beq_eq_false_iff_ne.mpr (fun he => hb (he ▸ List.mem_reverse.mp hc)))
  rw [h2, List.reverse_reverse]
  exact dropWhile_eq_self_all _ _ (fun c hc => beq_eq_false_iff_ne.mpr (fun he => hb (he ▸ hc)))

theorem headNotWs_lowerL (b : List Char) : headNotWs (lowerL b) = headNotWs b := by
  cases b with
  | nil => rfl
  | cons c t => simp [headNotWs, lowerL, isWsChar_toLower]

theorem isPrefixOf_lowerL_www (b : List Char)
    (h : List.isPrefixOf ("www.".toList) (lowerL b) = false) :
    List.isPrefixOf ("www.".toList) b = false := by
  cases hw : List.isPrefixOf ("www.".toList) b with
  | false => rfl
  | true =>
      exfalso
      have hpre2 : lowerL ("www.".toList) <+: lowerL b :=
        (List.isPrefixOf_iff_prefix.mp hw).map Char.toLower
      have hpre3 : ("www.".toList) <+: lowerL b := by
        simpa [show lowerL ("www.".toList) = "www.".toList from by decide] using hpre2
      exact absurd (List.isPrefixOf_iff_prefix.mpr hpre3) (by rw [h]; decide)

theorem normDomain_decor (s : List Char) (w k : Bool) (b : List Char)
    (hs : s = [] ∨ s = "http://".toList ∨ s = "https://".toList)
    (hb : goodBody b) :
    normDomainL (s ++ ((if w then "www.".toList else []) ++ (b ++ (if k then ['/'] else [])))) =
      lowerL b := by
  obtain ⟨hbc, hbs, hbw, hbh⟩ := hb
  have hcb : ':' ∉ b := fun h => hbc ((mem_lowerL_not_alpha b (by decide)).mpr h)
  have hsb : '/' ∉ b := fun h => hbs ((mem_lowerL_not_alpha b (by decide)).mpr h)
  have hwb : List.isPrefixOf ("www.".toList) b = false := isPrefixOf_lowerL_www b hbw
  have hhb : headNotWs b = true := by rw [← headNotWs_lowerL]; exact hbh
  have hr : ∀ x ∈ (if k then ['/'] else []), x = '/' := by cases k <;> simp
  have hhbr : headNotWs (b ++ (if k then ['/'] else [])) = true := by
    cases b with
    | nil => cases k <;> simp [headNotWs, isWsChar]
    | cons c t => simpa [headNotWs] using hhb
  have hcbr : ':' ∉ b ++ (if k then ['/'] else []) := by
    intro h
    rcases List.mem_append.mp h with h | h
    · exact hcb h
    · exact absurd (hr _ h) (by decide)
  unfold normDomainL
  have h1 : stripSchemeL (s ++ ((if w then "www.".toList else []) ++
      (b ++ (if k then ['/'] else [])))) =
      (if w then "www.".toList else []) ++ (b ++ (if k then ['/'] else [])) := by
    rcases hs with rfl | rfl | rfl
    · rw [List.nil_append]
      cases w with
      | true => exact stripScheme_w _
      | false =>
          rw [if_neg (by simp), List.nil_append]
          exact stripScheme_no_colon _ hcbr hhbr
    · exact stripScheme_http _
    · exact stripScheme_https _
  rw [h1]
  have h2 : stripWwwL ((if w then "www.".toList else []) ++
      (b ++ (if k then ['/'] else []))) = b ++ (if k then ['/'] else []) := by
    cases w with
    | true => exact stripWww_www _
    | false =>
        rw [if_neg (by simp), List.nil_append]
        apply stripWww_not
        cases hw : List.isPrefixOf ("www.".toList) (b ++ (if k then ['/'] else [])) with
        | false => rfl
        | true =>
            exfalso
            have hpb : "www.".toList <+: b :=
              prefix_slashfree (List.isPrefixOf_iff_prefix.mp hw) (by decide) hr
            exact absurd (List.isPrefixOf_iff_prefix.mpr hpb) (by rw [hwb]; decide)
  rw [h2, stripEnds_slash b _ hsb hr]

theorem normDomain_lower (b : List Char) (hb : goodBody b) :
    normDomainL (lowerL b) = lowerL b := by
  obtain ⟨hbc, hbs, hbw, hbh⟩ := hb
  unfold normDomainL
  rw [stripScheme_no_colon _ hbc hbh, stripWww_not _ hbw]
  have h3 : stripEndsL '/' (lowerL b) = lowerL b := by
    have h := stripEnds_slash (lowerL b) [] hbs (by simp)
    simpa using h
  rw [h3, lowerL_idem]

/-- Counterexample to C2 as stated: the scheme regex and the `www.`
regex run before lower-casing and match lower case only, so an
upper-case scheme is not stripped, and the normalizer is not idempotent
(a second pass strips the `www.` that lower-casing has just
produced). -/
theorem C2_counterexample :
    normalize_domain_like (some "HTTP://foo.com") ≠ normalize_domain_like (some "foo.com") ∧
    normalize_domain_like (some (normalize_domain_like (some "Www.foo.com"))) ≠
      normalize_domain_like (some "Www.foo.com") := by
  exact ⟨by decide, by decide⟩

/-- Claim C2, corrected: for every pair of well-formed bare domain
bodies equal up to letter case, decorated with a lower-case `http://`
or `https://` scheme or none, an optional lower-case `www.` prefix, and
an optional trailing slash, `normalize_domain_like` returns one and the
same key, and it is idempotent on such inputs.  Stripping is
case-sensitive, so upper-case scheme or `www.` variants are outside the
law, as the counterexample shows they must be. -/
theorem C2_theorem (b₁ b₂ s₁ s₂ : List Char) (w₁ w₂ k₁ k₂ : Bool)
    (hs₁ : s₁ = [] ∨ s₁ = "http://".toList ∨ s₁ = "https://".toList)
    (hs₂ : s₂ = [] ∨ s₂ = "http://".toList ∨ s₂ = "https://".toList)
    (hb₁ : goodBody b₁) (hb₂ : goodBody b₂)
    (hcase : lowerL b₁ = lowerL b₂) :
    normalize_domain_like (some (decorateL s₁ w₁ k₁ b₁)) =
      normalize_domain_like (some (decorateL s₂ w₂ k₂ b₂)) ∧
    normalize_domain_like (some (normalize_domain_like (some (decorateL s₁ w₁ k₁ b₁)))) =
      normalize_domain_like (some (decorateL s₁ w₁ k₁ b₁)) := by
  have e₁ : normalize_domain_like (some (decorateL s₁ w₁ k₁ b₁)) = String.mk (lowerL b₁) :=
    congrArg String.mk (normDomain_decor s₁ w₁ k₁ b₁ hs₁ hb₁)
  have e₂ : normalize_domain_like (some (decorateL s₂ w₂ k₂ b₂)) = String.mk (lowerL b₂) :=
    congrArg String.mk (normDomain_decor s₂ w₂ k₂ b₂ hs₂ hb₂)
  constructor
  · rw [e₁, e₂, hcase]
  · rw [e₁]
    exact congrArg String.mk (normDomain_lower b₁ hb₁)

/-- Witness for C2: the decorated variants of Example.com and
example.com share the key example.com, and normalization fixes it. -/
theorem C2_witness :
    normalize_domain_like
        (some (decorateL ("https://".toList) true true ("Example.com".toList))) =
      normalize_domain_like (some (decorateL [] false false ("example.com".toList))) ∧
    normalize_domain_like (some (normalize_domain_like
        (some (decorateL ("https://".toList) true true ("Example.com".toList))))) =
      normalize_domain_like
        (some (decorateL ("https://".toList) true true ("Example.com".toList))) :=
  C2_theorem ("Example.com".toList) ("example.com".toList) ("https://".toList) []
    true false true false (Or.inr (Or.inr rfl)) (Or.inl rfl)
    (by decide) (by decide) (by decide)
